import Mathlib

/-!
# Verification of the p4fpga LLVM backend model

Shallow embedding of `src/llvmProgram.py` (class `LLVMProgram`) and
`src/p4c/utils.py` of the p4fpga repository, together with proofs of the
specified properties of the control-flow linearization, the name registry,
the instance classifier, the lookup registries and the width resolver.

Conventions of the embedding:
* Python mutable `self` state becomes an explicit `LLVMProgram` record that is
  threaded through each operation; a method returning a value becomes a
  function returning `value × state`.
* A raised Python exception becomes an `Except` error value.  Exceptions that
  the source raises explicitly (`NotSupportedException`,
  `CompilationException`) are modelled by their constructor arguments; Python
  runtime errors that the source provably runs into (an unresolved module
  name, iterating `None`) are modelled by dedicated error constructors.
* Python object identity of HLIR nodes is modelled by an `id : Nat` field.
* The worklist of `generatePipelineInternal` (a Python `set` with arbitrary
  `pop` order) is modelled as a list; since elements popped while already
  visited are discarded, the multiset/order freedom of the model only widens
  the behaviours and the once-per-node results hold for every pop order.
-/

namespace P4FPGA

/-! ## Control-flow linearization (`generatePipelineInternal`, lines 253-280)

The control-flow nodes (`p4_node` objects: tables, conditionals, actions) are
an abstract finite type `V`; `succ v` models `v.next_.values()`, whose entries
may be `None` (branch with no successor).  `generateControlFlowNode` only
emits code, so the observable behaviour of a pass is the ordered list of nodes
handed to it; `nextEntryPoint` is threaded exactly as in the source. -/

variable {V : Type} [DecidableEq V]

/-- `generatePipelineInternal(self, serializer, nodestoadd, nextEntryPoint)`:
worklist traversal with a `done` set; a popped node already in `done`, or the
`None` marker, is discarded; otherwise it is recorded (emitted) and all of its
successors are added to the worklist.  Returns the emission order.  `V` is
finite, reflecting the finitely many `p4_node` objects of one HLIR. -/
def generatePipelineInternal [Fintype V] (succ : V → List (Option V)) (nextEntryPoint : Option V) :
    List (Option V) → Finset V → List V
  | [], _ => []
  | none :: rest, done => generatePipelineInternal succ nextEntryPoint rest done
  | some todo :: rest, done =>
    if h : todo ∈ done then
      generatePipelineInternal succ nextEntryPoint rest done
    else
      todo :: generatePipelineInternal succ nextEntryPoint (rest ++ succ todo) (insert todo done)
termination_by ws done => ((Finset.univ \ done).card, ws.length)
decreasing_by
  · exact Prod.Lex.right _ (Nat.lt_succ_self _)
  · exact Prod.Lex.right _ (Nat.lt_succ_self _)
  · apply Prod.Lex.left
    apply Finset.card_lt_card
    constructor
    · exact Finset.sdiff_subset_sdiff (le_refl _) (Finset.subset_insert _ _)
    · intro hsub
      have h1 : todo ∈ Finset.univ \ done := by simp [h]
      have h2 := hsub h1
      simp at h2

/-- `generatePipeline(self, serializer)` (lines 273-280): an ingress pass
seeded with the parser entry points, with the egress entry as fallthrough
target, followed by an egress pass seeded with only the egress entry and
fallthrough target `None`.  The result is the total emission order. -/
def generatePipeline [Fintype V] (succ : V → List (Option V)) (entryPoints : List V)
    (egressEntry : Option V) : List V :=
  generatePipelineInternal succ egressEntry (entryPoints.map some) ∅ ++
    generatePipelineInternal succ none [egressEntry] ∅

/-- Reachability in the control-flow graph: `x` is a seed, or is a non-null
successor of a reachable node.  Used to state the traversal theorems. -/
inductive Reach (succ : V → List (Option V)) (seeds : V → Prop) : V → Prop
  | seed {x : V} : seeds x → Reach succ seeds x
  | step {x y : V} : Reach succ seeds x → some y ∈ succ x → Reach succ seeds y

/-! ## HLIR input model

The HLIR object graph (`p4_hlir`) is the immutable input of the backend.  Only
the attributes that `llvmProgram.py` reads are modelled.  Python's `dict`
collections are modelled by lists of their `.values()` (resp. `.keys()` for
`p4_ingress_ptr`) in iteration order. -/

/-- A `p4_node` control-flow/parser object.  `id` models Python object
identity (two distinct objects may carry equal names); `isParseState` models
`isinstance(node, p4_parse_state)`. -/
structure P4Node where
  id : Nat
  name : String
  isParseState : Bool
deriving DecidableEq

/-- A `p4_header_instance`: attributes `name`, `base_name`, `index`,
`max_index` (None unless the instance uses array indexing) and `metadata`. -/
structure HeaderInstance where
  name : String
  base_name : String
  index : Nat
  max_index : Option Nat
  metadata : Bool
deriving DecidableEq

/-- One entry of `hlir.p4_field_list_calculations`; only `.name` is read. -/
structure FieldListCalculation where
  name : String
deriving DecidableEq

/-- The slice of the HLIR read by `LLVMProgram.construct`. -/
structure HLIR where
  p4_field_list_calculations : List FieldListCalculation
  p4_header_instances : List HeaderInstance
  p4_parse_states : List P4Node
  p4_ingress_ptr : List P4Node
  p4_conditional_nodes : List P4Node
  p4_egress_ptr : Option P4Node
deriving DecidableEq

/-! ## Code-generation wrapper shells

`llvmInstance.py`, `llvmParser.py` and `llvmDeparser.py` are not part of the
two source files.  Modelled from the spec: each wrapper stores its HLIR node
and is addressable by name (a header/metadata wrapper by the instance name, a
stack wrapper by the group base name); a header stack additionally carries the
fresh index-variable name allocated at construction. -/

structure LLVMHeader where
  name : String
  hlirInstance : HeaderInstance
deriving DecidableEq

structure LLVMMetadata where
  name : String
  hlirInstance : HeaderInstance
deriving DecidableEq

structure LLVMHeaderStack where
  name : String
  hlirInstance : HeaderInstance
  indexVarName : String
deriving DecidableEq

structure LLVMParser where
  parseState : P4Node
deriving DecidableEq

structure LLVMTable where
  name : String
deriving DecidableEq

structure LLVMConditional where
  name : String
deriving DecidableEq

structure LLVMAction where
  name : String
  lineno : Int
deriving DecidableEq

structure LLVMDeparser where
  hlir : HLIR
deriving DecidableEq

/-- Faults of the backend.  `notSupported` models `NotSupportedException`
(format string and offending name), `compilationError` models
`CompilationException(isBug, format, arg)`.  `pythonNameError` models the
`NameError` Python raises for a module name that is referenced but never
imported (`llvmConditional` at line 96 of `llvmProgram.py` does not appear in
the import list, lines 4-12). -/
inductive CompilationException where
  | notSupported (format : String) (arg : String)
  | compilationError (isBug : Bool) (format : String) (arg : String)
  | pythonNameError (ident : String)
deriving DecidableEq

/-- The mutable state of one `LLVMProgram` object: every field `__init__`
assigns, except the emitter-side collaborators (`typeFactory`, serializer
handles) and the four struct-name strings assigned after `construct`, which no
modelled operation reads.  `counters` stays empty in the modelled code and is
omitted.  `entryPointLabels` is the label dict, modelled as an association
list with Python-dict overwrite-on-insert semantics. -/
structure LLVMProgram where
  name : String
  uniqueNameCounter : Nat
  reservedPref : String
  packetName : String
  dropBit : String
  license : String
  offsetVariableName : String
  zeroKeyName : String
  errorName : String
  functionName : String
  egressPortName : String
  errorCodes : List String
  actions : List LLVMAction
  conditionals : List LLVMConditional
  tables : List LLVMTable
  headers : List LLVMHeader
  metadata : List LLVMMetadata
  «stacks» : List LLVMHeaderStack
  parsers : List LLVMParser
  deparser : Option LLVMDeparser
  entryPoints : List P4Node
  entryPointLabels : List (String × String)
  egressEntry : Option P4Node
deriving DecidableEq

/-- The field assignments of `LLVMProgram.__init__` that precede the
`construct()` call (lines 16-57).  `reservedPref` is the source's reserved
prefix attribute (`"llvm_"`). -/
def LLVMProgram.initState (name : String) : LLVMProgram :=
  let rp := "llvm_"
  { name := name
    uniqueNameCounter := 0
    reservedPref := rp
    packetName := rp ++ "packet"
    dropBit := rp ++ "drop"
    license := "MIT"
    offsetVariableName := rp ++ "packetOffsetInBits"
    zeroKeyName := rp ++ "zero"
    errorName := rp ++ "error"
    functionName := rp ++ "filter"
    egressPortName := "egress_port"
    errorCodes := [
      "p4_pe_no_error",
      "p4_pe_index_out_of_bounds",
      "p4_pe_out_of_packet",
      "p4_pe_header_too_long",
      "p4_pe_header_too_short",
      "p4_pe_unhandled_select",
      "p4_pe_checksum"]
    actions := []
    conditionals := []
    tables := []
    headers := []
    metadata := []
    «stacks» := []
    parsers := []
    deparser := none
    entryPoints := []
    entryPointLabels := []
    egressEntry := none }

/-- `generateNewName(self, base)` (lines 133-140): appends `"_" + str(counter)`
to `base` and increments the counter. -/
def generateNewName (p : LLVMProgram) (base : String) : String × LLVMProgram :=
  (base ++ "_" ++ Nat.repr p.uniqueNameCounter,
   { p with uniqueNameCounter := p.uniqueNameCounter + 1 })

/-- Running a sequence of `generateNewName` calls on one program instance;
harness for the fresh-name theorems. -/
def runNewNames (p : LLVMProgram) : List String → List String × LLVMProgram
  | [] => ([], p)
  | b :: bs =>
    let r := generateNewName p b
    let rs := runNewNames r.2 bs
    (r.1 :: rs.1, rs.2)

/-- Python-dict insertion on the association list: overwrite the first binding
of the key, or append a new binding. -/
def labelInsert : List (String × String) → String → String → List (String × String)
  | [], key, val => [(key, val)]
  | kv :: rest, key, val =>
    if kv.1 = key then (key, val) :: rest else kv :: labelInsert rest key val

/-- Python-dict lookup on the association list. -/
def labelFind? (m : List (String × String)) (key : String) : Option String :=
  (m.find? (fun kv => kv.1 == key)).map (fun kv => kv.2)

/-- `getLabel(self, p4node)` (lines 121-131): `None` yields `"end"`; a parse
state first (re)binds its own name as its label; then a missing binding for
`p4node.name` is filled with a fresh name, and the binding of `p4node.name`
is returned. -/
def getLabel (p : LLVMProgram) (p4node : Option P4Node) : String × LLVMProgram :=
  match p4node with
  | none => ("end", p)
  | some node =>
    let p1 := if node.isParseState then
        { p with entryPointLabels := labelInsert p.entryPointLabels node.name node.name }
      else p
    match labelFind? p1.entryPointLabels node.name with
    | some label => (label, p1)
    | none =>
      let r := generateNewName p1 node.name
      (r.1, { r.2 with entryPointLabels := labelInsert r.2.entryPointLabels node.name r.1 })

/-- `isInternalAction(self, action)` (lines 102-105): the negative-line-number
heuristic for built-in actions. -/
def isInternalAction (action : LLVMAction) : Bool :=
  action.lineno < 0

/-- The header-instance classification loop of `construct` (lines 72-86):
array-indexed instances materialize one stack wrapper at index zero only
(allocating one fresh index-variable name); otherwise the `metadata` flag
selects metadata vs. header. -/
def constructInstances (p : LLVMProgram) : List HeaderInstance → LLVMProgram
  | [] => p
  | h :: rest =>
    let p' :=
      match h.max_index with
      | some _ =>
        if h.index = 0 then
          let r := generateNewName p (h.base_name ++ "_index")
          { r.2 with «stacks» := r.2.«stacks» ++ [⟨h.base_name, h, r.1⟩] }
        else p
      | none =>
        if h.metadata then { p with metadata := p.metadata ++ [⟨h.name, h⟩] }
        else { p with headers := p.headers ++ [⟨h.name, h⟩] }
    constructInstances p' rest

/-- `construct(self)` (lines 66-100).  The calculated-field check is the first
statement; on failure the error carries the (unchanged) program state.  The
conditional-node loop references the unimported module `llvmConditional`, so a
non-empty `p4_conditional_nodes` raises `NameError` at its first iteration. -/
def construct (p : LLVMProgram) (hlir : HLIR) :
    Except (CompilationException × LLVMProgram) LLVMProgram :=
  match hlir.p4_field_list_calculations with
  | flc :: _ => .error (.notSupported "{0} calculated field" flc.name, p)
  | [] =>
    let p1 := constructInstances p hlir.p4_header_instances
    let p2 := { p1 with
      parsers := p1.parsers ++ hlir.p4_parse_states.map (fun s => LLVMParser.mk s) }
    let p3 := { p2 with entryPoints := p2.entryPoints ++ hlir.p4_ingress_ptr }
    match hlir.p4_conditional_nodes with
    | _ :: _ => .error (.pythonNameError "llvmConditional", p3)
    | [] =>
      .ok { p3 with egressEntry := hlir.p4_egress_ptr, deparser := some ⟨hlir⟩ }

/-- `LLVMProgram.__init__`: build the initial state and run `construct`. -/
def LLVMProgram.init (name : String) (hlir : HLIR) :
    Except (CompilationException × LLVMProgram) LLVMProgram :=
  construct (LLVMProgram.initState name) hlir

/-! ## Lookup registries (lines 192-238) -/

/-- The shared shape of the five lookup loops: linear scan, first exact-name
match wins. -/
def findByName {α : Type} (getName : α → String) (name : String) : List α → Option α
  | [] => none
  | x :: xs => if getName x = name then some x else findByName getName name xs

/-- `getStackInstance(self, name)` (lines 192-200). -/
def getStackInstance (p : LLVMProgram) (name : String) :
    Except CompilationException LLVMHeaderStack :=
  match findByName LLVMHeaderStack.name name p.«stacks» with
  | some h => .ok h
  | none => .error (.compilationError true "Could not locate header stack named {0}" name)

/-- `getHeaderInstance(self, name)` (lines 202-210). -/
def getHeaderInstance (p : LLVMProgram) (name : String) :
    Except CompilationException LLVMHeader :=
  match findByName LLVMHeader.name name p.headers with
  | some h => .ok h
  | none => .error (.compilationError true "Could not locate header instance named {0}" name)

/-- `getInstance(self, name)` (lines 212-222): scans headers, then metadata. -/
def getInstance (p : LLVMProgram) (name : String) :
    Except CompilationException (LLVMHeader ⊕ LLVMMetadata) :=
  match findByName LLVMHeader.name name p.headers with
  | some h => .ok (Sum.inl h)
  | none =>
    match findByName LLVMMetadata.name name p.metadata with
    | some m => .ok (Sum.inr m)
    | none => .error (.compilationError true "Could not locate instance named {0}" name)

/-- `getTable(self, name)` (lines 224-230). -/
def getTable (p : LLVMProgram) (name : String) : Except CompilationException LLVMTable :=
  match findByName LLVMTable.name name p.tables with
  | some t => .ok t
  | none => .error (.compilationError true "Could not locate table named {0}" name)

/-- `getConditional(self, name)` (lines 232-238). -/
def getConditional (p : LLVMProgram) (name : String) :
    Except CompilationException LLVMConditional :=
  match findByName LLVMConditional.name name p.conditionals with
  | some c => .ok c
  | none => .error (.compilationError true "Could not locate conditional named {0}" name)

/-! ## Classification predicates

The four mutually exclusive cases of the classification loop, as boolean
predicates on a header instance; used to state the classification theorem. -/

def isStackZero (h : HeaderInstance) : Bool :=
  h.max_index.isSome && h.index == 0

def isStackNonZero (h : HeaderInstance) : Bool :=
  h.max_index.isSome && !(h.index == 0)

def isMetadataInst (h : HeaderInstance) : Bool :=
  !h.max_index.isSome && h.metadata

def isHeaderInst (h : HeaderInstance) : Bool :=
  !h.max_index.isSome && !h.metadata

/-- The stack wrappers the classification loop appends for the stack-zero
instances, given the name counter at loop entry; used to state the
classification theorem. -/
def stackWrappers (c : Nat) : List HeaderInstance → List LLVMHeaderStack
  | [] => []
  | h :: rest =>
    ⟨h.base_name, h, h.base_name ++ "_index" ++ "_" ++ Nat.repr c⟩ :: stackWrappers (c + 1) rest

/-! ## `src/p4c/utils.py`: width resolver and expression flattener

`config.jsondata` is the BMV2-style JSON program representation: header types
(name, field list with bit widths) and headers (name, header-type name). -/

structure JsonHeaderType where
  name : String
  fields : List (String × Nat)
deriving DecidableEq

structure JsonHeader where
  name : String
  header_type : String
deriving DecidableEq

structure JsonData where
  header_types : List JsonHeaderType
  headers : List JsonHeader
deriving DecidableEq

/-- Python runtime faults of `p4c/utils.py`: referencing an undefined name,
a missing dict key, iterating a `None` value. -/
inductive PyRuntimeError where
  | nameError (ident : String)
  | keyError (key : String)
  | typeErrorNotIterable
deriving DecidableEq

/-- `GetHeaderTypeWidth(header_type)` (lines 34-41): first matching header
type; width is the sum of its field widths; unknown name yields `None`. -/
def GetHeaderTypeWidth (jsondata : JsonData) (header_type : String) : Option Nat :=
  match jsondata.header_types.find? (fun h => h.name == header_type) with
  | some h => some ((h.fields.map (fun f => f.2)).sum)
  | none => none

/-- `GetHeaderWidth(header)` (lines 43-50): first matching header, then its
type width; unknown name yields `None`. -/
def GetHeaderWidth (jsondata : JsonData) (header : String) : Option Nat :=
  match jsondata.headers.find? (fun h => h.name == header) with
  | some h => GetHeaderTypeWidth jsondata h.header_type
  | none => none

/-- `GetFieldWidth(field)` (lines 52-67).  The first two loops have no early
return, so the *last* match wins (modelled by `foldl`); `hty`/`fields` start
unset (`None`).  The final loop `for f, width in fields` iterates `fields`,
which raises `TypeError` when it is still `None`. -/
def GetFieldWidth (jsondata : JsonData) (field : String × String) :
    Except PyRuntimeError (Option Nat) :=
  let hty : Option String :=
    jsondata.headers.foldl (fun acc h => if h.name = field.1 then some h.header_type else acc) none
  let fields : Option (List (String × Nat)) :=
    jsondata.header_types.foldl (fun acc h => if some h.name = hty then some h.fields else acc) none
  match fields with
  | none => .error .typeErrorNotIterable
  | some fs => .ok ((fs.find? (fun f => f.1 == field.2)).map (fun f => f.2))

/-- A JSON `value` of a `header`/`field` expression node: a plain string or a
list of strings (joined with `"$"` when flattened). -/
inductive JsonValue where
  | str (s : String)
  | strList (l : List String)
deriving DecidableEq

/-- An element appended to the `sb` output list of `build_expression`; Python
lists are heterogeneous and a `bool` node appends the boolean itself. -/
inductive SBItem where
  | str (s : String)
  | boolVal (b : Bool)
deriving DecidableEq

/-- A JSON expression node as read by `build_expression`: `json_data["type"]`
selects the constructor, `json_data["value"]` the payload; for an
`expression`, the payload carries `op`/`left`/`right` and the node may carry a
`cond` key (read only for the ternary operator `"?"`).  `nullE` is a
null/falsy `json_data`. -/
inductive JsonExpr where
  | nullE
  | expression (op : String) (cond : Option JsonExpr) (left : JsonExpr) (right : JsonExpr)
  | header (value : JsonValue)
  | field (value : JsonValue)
  | boolE (value : Bool)
  | hexstr (value : String)
  | localE (value : String)
  | register (value : String)

/-- `json_left is None` of line 116. -/
def JsonExpr.isNull : JsonExpr → Bool
  | .nullE => true
  | _ => false

/-- `"$".join(json_value)` for a list value, the string itself otherwise. -/
def JsonValue.flat : JsonValue → String
  | .str s => s
  | .strList l => String.intercalate "$" l

/-- `build_expression(json_data, sb, metadata)` (lines 98-144).  In the
ternary branch (`op == "?"`, lines 110-114) the source reads
`json_data["cond"]` (KeyError when absent) and then recurses on
`value["left"]` where `value` is an undefined name, so the branch always
raises (`NameError: value`) and never extends `sb`. -/
def build_expression : JsonExpr → List SBItem → List JsonValue →
    Except PyRuntimeError (List SBItem × List JsonValue)
  | .nullE, sb, md => .ok (sb, md)
  | .expression op cond left right, sb, md =>
    let sb1 := sb ++ [SBItem.str "("]
    if op = "?" then
      match cond with
      | none => .error (.keyError "cond")
      | some _ => .error (.nameError "value")
    else
      let step1 : Except PyRuntimeError (List SBItem × List JsonValue) :=
        if ((op == "+") || (op == "-")) && left.isNull then .ok (sb1, md)
        else build_expression left sb1 md
      match step1 with
      | .error e => .error e
      | .ok (sb2, md2) =>
        match build_expression right (sb2 ++ [SBItem.str op]) md2 with
        | .error e => .error e
        | .ok (sb3, md3) => .ok (sb3 ++ [SBItem.str ")"], md3)
  | .header v, sb, md => .ok (sb ++ [SBItem.str v.flat], md ++ [v])
  | .field v, sb, md => .ok (sb ++ [SBItem.str v.flat], md ++ [v])
  | .boolE b, sb, md => .ok (sb ++ [SBItem.boolVal b], md)
  | .hexstr s, sb, md => .ok (sb ++ [SBItem.str s], md)
  | .localE s, sb, md => .ok (sb ++ [SBItem.str s], md)
  | .register s, sb, md => .ok (sb ++ [SBItem.str s], md)

/-! ## Decimal-representation support

`generateNewName` suffixes are `str(counter)`; distinctness of generated
names rests on `Nat.repr` producing a non-empty all-digit string and being
injective.  `ofDigitChars` parses a digit string back (most significant
first). -/

def digitVal (c : Char) : Nat := c.toNat - 48

def ofDigitChars (l : List Char) : Nat := l.foldl (fun a c => a * 10 + digitVal c) 0

/-- The maximal digit run at the end of a string, reversed. -/
def lastDigitRun (s : String) : List Char := s.data.reverse.takeWhile Char.isDigit

/-! ## Concrete example graphs for witnesses -/

/-- A diamond control-flow graph: two paths from node 0 converge on node 3,
which has a null successor. -/
def diamondSucc : Fin 4 → List (Option (Fin 4))
  | 0 => [some 1, some 2]
  | 1 => [some 3]
  | 2 => [some 3]
  | 3 => [none]

/-- A two-region graph: ingress node 0 terminates with a null successor;
node 1 is the egress entry, referenced by no edge. -/
def twoRegionSucc : Fin 2 → List (Option (Fin 2))
  | 0 => [none]
  | 1 => [none]

/-- An HLIR declaring one calculated field (and one otherwise valid header
instance), for the construction-failure witnesses. -/
def hlirWithCalc : HLIR :=
  { p4_field_list_calculations := [⟨"csum"⟩]
    p4_header_instances := [⟨"ipv4", "ipv4", 0, none, false⟩]
    p4_parse_states := []
    p4_ingress_ptr := []
    p4_conditional_nodes := []
    p4_egress_ptr := none }

/-- An HLIR with no calculated fields and no conditionals. -/
def hlirEmpty : HLIR :=
  { p4_field_list_calculations := []
    p4_header_instances := []
    p4_parse_states := []
    p4_ingress_ptr := []
    p4_conditional_nodes := []
    p4_egress_ptr := none }

/-! # Theorems

## Worklist traversal lemmas -/

theorem Reach.bind {succ : V → List (Option V)} {s s' : V → Prop} {x : V}
    (h : Reach succ s' x) (hs : ∀ v, s' v → Reach succ s v) : Reach succ s x := by
  induction h with
  | seed hx => exact hs _ hx
  | step _ hy ih => exact ih.step hy

theorem Reach.mono {succ : V → List (Option V)} {s s' : V → Prop} {x : V}
    (hss : ∀ v, s v → s' v) (h : Reach succ s x) : Reach succ s' x :=
  h.bind (fun v hv => Reach.seed (hss v hv))

theorem generatePipelineInternal_nil [Fintype V] (succ : V → List (Option V))
    (next : Option V) (done : Finset V) :
    generatePipelineInternal succ next [] done = [] := by
  rw [generatePipelineInternal]

theorem generatePipelineInternal_none [Fintype V] (succ : V → List (Option V))
    (next : Option V) (ws : List (Option V)) (done : Finset V) :
    generatePipelineInternal succ next (none :: ws) done
      = generatePipelineInternal succ next ws done := by
  rw [generatePipelineInternal]

theorem generatePipelineInternal_popDone [Fintype V] (succ : V → List (Option V))
    (next : Option V) (t : V) (ws : List (Option V)) (done : Finset V) (h : t ∈ done) :
    generatePipelineInternal succ next (some t :: ws) done
      = generatePipelineInternal succ next ws done := by
  rw [generatePipelineInternal]
  simp [h]

theorem generatePipelineInternal_popNew [Fintype V] (succ : V → List (Option V))
    (next : Option V) (t : V) (ws : List (Option V)) (done : Finset V) (h : t ∉ done) :
    generatePipelineInternal succ next (some t :: ws) done
      = t :: generatePipelineInternal succ next (ws ++ succ t) (insert t done) := by
  rw [generatePipelineInternal]
  simp [h]

/-- Every emitted node was not yet visited when the pass started. -/
theorem generatePipelineInternal_not_done [Fintype V] (succ : V → List (Option V))
    (next : Option V) :
    ∀ (ws : List (Option V)) (done : Finset V) (x : V),
      x ∈ generatePipelineInternal succ next ws done → x ∉ done := by
  intro ws done
  induction ws, done using generatePipelineInternal.induct succ next with
  | case1 done =>
    simp [generatePipelineInternal_nil]
  | case2 rest done ih =>
    simpa [generatePipelineInternal_none] using ih
  | case3 t rest done ht ih =>
    simpa [generatePipelineInternal_popDone _ _ _ _ _ ht] using ih
  | case4 t rest done ht ih =>
    intro x hx
    rw [generatePipelineInternal_popNew _ _ _ _ _ ht] at hx
    rcases List.mem_cons.mp hx with rfl | hx
    · exact ht
    · have := ih x hx
      simp only [Finset.mem_insert, not_or] at this
      exact this.2

/-- A pass never emits a node twice. -/
theorem generatePipelineInternal_nodup [Fintype V] (succ : V → List (Option V))
    (next : Option V) :
    ∀ (ws : List (Option V)) (done : Finset V),
      (generatePipelineInternal succ next ws done).Nodup := by
  intro ws done
  induction ws, done using generatePipelineInternal.induct succ next with
  | case1 done =>
    simp [generatePipelineInternal_nil]
  | case2 rest done ih =>
    simpa [generatePipelineInternal_none] using ih
  | case3 t rest done ht ih =>
    simpa [generatePipelineInternal_popDone _ _ _ _ _ ht] using ih
  | case4 t rest done ht ih =>
    rw [generatePipelineInternal_popNew _ _ _ _ _ ht]
    refine List.nodup_cons.mpr ⟨fun hmem => ?_, ih⟩
    have := generatePipelineInternal_not_done succ next _ _ t hmem
    simp at this

/-- Soundness: every emitted node is reachable from the worklist seeds or the
already-visited set. -/
theorem generatePipelineInternal_sound [Fintype V] (succ : V → List (Option V))
    (next : Option V) :
    ∀ (ws : List (Option V)) (done : Finset V) (x : V),
      x ∈ generatePipelineInternal succ next ws done →
      Reach succ (fun v => some v ∈ ws ∨ v ∈ done) x := by
  intro ws done
  induction ws, done using generatePipelineInternal.induct succ next with
  | case1 done =>
    simp [generatePipelineInternal_nil]
  | case2 rest done ih =>
    intro x hx
    rw [generatePipelineInternal_none] at hx
    refine (ih x hx).mono ?_
    intro v hv
    rcases hv with hv | hv
    · exact Or.inl (List.mem_cons_of_mem _ hv)
    · exact Or.inr hv
  | case3 t rest done ht ih =>
    intro x hx
    rw [generatePipelineInternal_popDone _ _ _ _ _ ht] at hx
    refine (ih x hx).mono ?_
    intro v hv
    rcases hv with hv | hv
    · exact Or.inl (List.mem_cons_of_mem _ hv)
    · exact Or.inr hv
  | case4 t rest done ht ih =>
    intro x hx
    rw [generatePipelineInternal_popNew _ _ _ _ _ ht] at hx
    have htr : Reach succ (fun v => some v ∈ some t :: rest ∨ v ∈ done) t :=
      Reach.seed (Or.inl (List.mem_cons_self _ _))
    rcases List.mem_cons.mp hx with rfl | hx
    · exact htr
    · refine (ih x hx).bind ?_
      intro v hv
      rcases hv with hv | hv
      · rcases List.mem_append.mp hv with hv | hv
        · exact Reach.seed (Or.inl (List.mem_cons_of_mem _ hv))
        · exact htr.step hv
      · rcases Finset.mem_insert.mp hv with rfl | hv
        · exact htr
        · exact Reach.seed (Or.inr hv)

/-- Every node seeded in the worklist ends up visited or already was. -/
theorem generatePipelineInternal_covers [Fintype V] (succ : V → List (Option V))
    (next : Option V) :
    ∀ (ws : List (Option V)) (done : Finset V) (x : V),
      some x ∈ ws → x ∈ done ∨ x ∈ generatePipelineInternal succ next ws done := by
  intro ws done
  induction ws, done using generatePipelineInternal.induct succ next with
  | case1 done =>
    simp
  | case2 rest done ih =>
    intro x hx
    rw [generatePipelineInternal_none]
    rcases List.mem_cons.mp hx with hx | hx
    · exact absurd hx (by simp)
    · exact ih x hx
  | case3 t rest done ht ih =>
    intro x hx
    rw [generatePipelineInternal_popDone _ _ _ _ _ ht]
    rcases List.mem_cons.mp hx with hx | hx
    · exact Or.inl (Option.some_injective _ hx ▸ ht)
    · exact ih x hx
  | case4 t rest done ht ih =>
    intro x hx
    rw [generatePipelineInternal_popNew _ _ _ _ _ ht]
    rcases List.mem_cons.mp hx with hx | hx
    · exact Or.inr (Option.some_injective _ hx ▸ List.mem_cons_self _ _)
    · rcases ih x (List.mem_append_left _ hx) with hd | hm
      · rcases Finset.mem_insert.mp hd with rfl | hd
        · exact Or.inr (List.mem_cons_self _ _)
        · exact Or.inl hd
      · exact Or.inr (List.mem_cons_of_mem _ hm)

/-- Closure: if every successor of a visited node is visited or pending, the
set of visited-or-emitted nodes is closed under successors. -/
theorem generatePipelineInternal_closed [Fintype V] (succ : V → List (Option V))
    (next : Option V) :
    ∀ (ws : List (Option V)) (done : Finset V),
      (∀ d ∈ done, ∀ y, some y ∈ succ d → y ∈ done ∨ some y ∈ ws) →
      ∀ x, (x ∈ done ∨ x ∈ generatePipelineInternal succ next ws done) →
      ∀ y, some y ∈ succ x →
        y ∈ done ∨ y ∈ generatePipelineInternal succ next ws done := by
  intro ws done
  induction ws, done using generatePipelineInternal.induct succ next with
  | case1 done =>
    intro hinv x hx y hy
    rw [generatePipelineInternal_nil] at hx ⊢
    rcases hx with hx | hx
    · rcases hinv x hx y hy with h | h
      · exact Or.inl h
      · exact absurd h (by simp)
    · exact absurd hx (by simp)
  | case2 rest done ih =>
    intro hinv x hx y hy
    rw [generatePipelineInternal_none] at hx ⊢
    refine ih ?_ x hx y hy
    intro d hd z hz
    rcases hinv d hd z hz with h | h
    · exact Or.inl h
    · rcases List.mem_cons.mp h with h | h
      · exact absurd h (by simp)
      · exact Or.inr h
  | case3 t rest done ht ih =>
    intro hinv x hx y hy
    rw [generatePipelineInternal_popDone _ _ _ _ _ ht] at hx ⊢
    refine ih ?_ x hx y hy
    intro d hd z hz
    rcases hinv d hd z hz with h | h
    · exact Or.inl h
    · rcases List.mem_cons.mp h with h | h
      · exact Or.inl (Option.some_injective _ h ▸ ht)
      · exact Or.inr h
  | case4 t rest done ht ih =>
    intro hinv x hx y hy
    rw [generatePipelineInternal_popNew _ _ _ _ _ ht] at hx ⊢
    have hinv' : ∀ d ∈ insert t done, ∀ z, some z ∈ succ d →
        z ∈ insert t done ∨ some z ∈ rest ++ succ t := by
      intro d hd z hz
      rcases Finset.mem_insert.mp hd with rfl | hd
      · exact Or.inr (List.mem_append_right _ hz)
      · rcases hinv d hd z hz with h | h
        · exact Or.inl (Finset.mem_insert_of_mem h)
        · rcases List.mem_cons.mp h with h | h
          · exact Or.inl (Option.some_injective _ h ▸ Finset.mem_insert_self _ _)
          · exact Or.inr (List.mem_append_left _ h)
    have hx' : x ∈ insert t done ∨
        x ∈ generatePipelineInternal succ next (rest ++ succ t) (insert t done) := by
      rcases hx with hx | hx
      · exact Or.inl (Finset.mem_insert_of_mem hx)
      · rcases List.mem_cons.mp hx with rfl | hx
        · exact Or.inl (Finset.mem_insert_self _ _)
        · exact Or.inr hx
    rcases ih hinv' x hx' y hy with h | h
    · rcases Finset.mem_insert.mp h with rfl | h
      · exact Or.inr (List.mem_cons_self _ _)
      · exact Or.inl h
    · exact Or.inr (List.mem_cons_of_mem _ h)

/-- Completeness: with an empty visited set, every node reachable from the
seeds is emitted. -/
theorem generatePipelineInternal_complete [Fintype V] (succ : V → List (Option V))
    (next : Option V) (seeds : List V) (x : V)
    (hx : Reach succ (fun v => v ∈ seeds) x) :
    x ∈ generatePipelineInternal succ next (seeds.map some) ∅ := by
  induction hx with
  | seed hs =>
    rcases generatePipelineInternal_covers succ next (seeds.map some) ∅ _
        (List.mem_map_of_mem some hs) with h | h
    · exact absurd h (by simp)
    · exact h
  | step hr hy ih =>
    rcases generatePipelineInternal_closed succ next (seeds.map some) ∅
        (by simp) _ (Or.inr ih) _ hy with h | h
    · exact absurd h (by simp)
    · exact h

/-- The emission order does not depend on the fallthrough entry point: it is
passed to code generation of each node, never into the worklist or the
visited set. -/
theorem generatePipelineInternal_next_irrel [Fintype V] (succ : V → List (Option V))
    (n1 n2 : Option V) :
    ∀ (ws : List (Option V)) (done : Finset V),
      generatePipelineInternal succ n1 ws done = generatePipelineInternal succ n2 ws done := by
  intro ws done
  induction ws, done using generatePipelineInternal.induct succ n1 with
  | case1 done =>
    rw [generatePipelineInternal_nil, generatePipelineInternal_nil]
  | case2 rest done ih =>
    rw [generatePipelineInternal_none, generatePipelineInternal_none, ih]
  | case3 t rest done ht ih =>
    rw [generatePipelineInternal_popDone _ _ _ _ _ ht,
      generatePipelineInternal_popDone _ _ _ _ _ ht, ih]
  | case4 t rest done ht ih =>
    rw [generatePipelineInternal_popNew _ _ _ _ _ ht,
      generatePipelineInternal_popNew _ _ _ _ _ ht, ih]

/-- A node that is not a seed and is no node's successor is unreachable. -/
theorem not_reach_of_no_edge {succ : V → List (Option V)} {seeds : V → Prop} {e : V}
    (h1 : ¬ seeds e) (h2 : ∀ x, some e ∉ succ x) : ¬ Reach succ seeds e := by
  intro h
  cases h with
  | seed hs => exact h1 hs
  | step hr hy => exact h2 _ hy

/-! ## Claims C1 and C2: linearization -/

/-- Claim C1: a single `generatePipelineInternal` pass started on seed nodes
with an empty visited set emits exactly the nodes reachable from the seeds,
each exactly once however many predecessors enqueue it, and a pending entry
that is already visited or is the null marker is discarded without effect or
error. -/
theorem claim_C1 {V : Type} [DecidableEq V] [Fintype V] (succ : V → List (Option V))
    (seeds : List V) (next : Option V) :
    (generatePipelineInternal succ next (seeds.map some) ∅).Nodup ∧
    (∀ x, x ∈ generatePipelineInternal succ next (seeds.map some) ∅ ↔
      Reach succ (fun v => v ∈ seeds) x) ∧
    (∀ (ws : List (Option V)) (done : Finset V) (t : V), t ∈ done →
      generatePipelineInternal succ next (some t :: ws) done
        = generatePipelineInternal succ next ws done) ∧
    (∀ (ws : List (Option V)) (done : Finset V),
      generatePipelineInternal succ next (none :: ws) done
        = generatePipelineInternal succ next ws done) := by
  refine ⟨generatePipelineInternal_nodup succ next _ _, fun x => ⟨fun h => ?_,
      fun h => generatePipelineInternal_complete succ next seeds x h⟩,
    fun ws done t ht => generatePipelineInternal_popDone succ next t ws done ht,
    fun ws done => generatePipelineInternal_none succ next ws done⟩
  refine (generatePipelineInternal_sound succ next _ _ x h).mono ?_
  intro v hv
  simpa using hv

/-- Witness for C1 on the diamond graph: the single pass from node 0 emits
without duplicates, and an already-visited pending node is discarded. -/
theorem claim_C1_witness :
    (generatePipelineInternal diamondSucc none ([0].map some) ∅).Nodup ∧
    ((3 : Fin 4) ∈ ({3} : Finset (Fin 4)) ∧
      generatePipelineInternal diamondSucc none [some 3, none] {3}
        = generatePipelineInternal diamondSucc none [none] {3}) :=
  ⟨(claim_C1 diamondSucc [0] none).1,
    by decide,
    (claim_C1 diamondSucc [0] none).2.2.1 [none] {3} 3 (by decide)⟩

/-- Claim C2: when the egress entry is not reachable from the ingress entry
points (ingress and egress share no edges in the HLIR), the ingress pass never
emits it — it receives it only as the fallthrough-target parameter, which
provably never influences which nodes are visited — and the full pipeline
(ingress pass then egress pass) emits the egress entry exactly once. -/
theorem claim_C2 {V : Type} [DecidableEq V] [Fintype V] (succ : V → List (Option V))
    (entryPoints : List V) (e : V)
    (hsep : ¬ Reach succ (fun v => v ∈ entryPoints) e) :
    e ∉ generatePipelineInternal succ (some e) (entryPoints.map some) ∅ ∧
    (generatePipeline succ entryPoints (some e)).count e = 1 ∧
    (∀ (n1 n2 : Option V) (ws : List (Option V)) (done : Finset V),
      generatePipelineInternal succ n1 ws done = generatePipelineInternal succ n2 ws done) := by
  have hnotmem : e ∉ generatePipelineInternal succ (some e) (entryPoints.map some) ∅ := by
    intro hmem
    refine hsep ?_
    refine (generatePipelineInternal_sound succ (some e) _ _ e hmem).mono ?_
    intro v hv
    simpa using hv
  refine ⟨hnotmem, ?_, fun n1 n2 ws done => generatePipelineInternal_next_irrel succ n1 n2 ws done⟩
  rw [generatePipeline, List.count_append]
  have hzero : (generatePipelineInternal succ (some e) (entryPoints.map some) ∅).count e = 0 :=
    List.count_eq_zero.mpr hnotmem
  have hstep : generatePipelineInternal succ none [some e] (∅ : Finset V)
      = e :: generatePipelineInternal succ none ([] ++ succ e) (insert e ∅) :=
    generatePipelineInternal_popNew succ none e [] ∅ (by simp)
  have htail : (generatePipelineInternal succ none ([] ++ succ e) (insert e ∅)).count e = 0 := by
    refine List.count_eq_zero.mpr ?_
    intro hmem
    have := generatePipelineInternal_not_done succ none _ _ e hmem
    simp at this
  rw [hzero, hstep, List.count_cons_self, htail]

/-- Witness for C2 on the two-region graph: ingress `[0]`, egress entry `1`,
total emission count of the egress entry is one. -/
theorem claim_C2_witness :
    (1 : Fin 2) ∉ generatePipelineInternal twoRegionSucc (some 1) ([0].map some) ∅ ∧
    (generatePipeline twoRegionSucc [0] (some 1)).count 1 = 1 :=
  ⟨(claim_C2 twoRegionSucc [0] 1
      (not_reach_of_no_edge (by decide) (by decide))).1,
   (claim_C2 twoRegionSucc [0] 1
      (not_reach_of_no_edge (by decide) (by decide))).2.1⟩

/-! ## Decimal representation lemmas

`str(counter)` is `Nat.repr`; freshness of generated names needs that decimal
strings are non-empty, all digits, and injective in the represented number. -/

theorem toDigitsCore_append (b : Nat) :
    ∀ (fuel n : Nat) (acc : List Char),
      Nat.toDigitsCore b fuel n acc = Nat.toDigitsCore b fuel n [] ++ acc := by
  intro fuel
  induction fuel with
  | zero => intro n acc; simp [Nat.toDigitsCore]
  | succ f ih =>
    intro n acc
    simp only [Nat.toDigitsCore]
    by_cases h : n / b = 0
    · simp [h]
    · simp only [h, if_false]
      rw [ih (n / b) (Nat.digitChar (n % b) :: acc), ih (n / b) [Nat.digitChar (n % b)]]
      simp

theorem toDigitsCore_fuel :
    ∀ (f1 f2 n : Nat) (acc : List Char), n < f1 → n < f2 →
      Nat.toDigitsCore 10 f1 n acc = Nat.toDigitsCore 10 f2 n acc := by
  intro f1
  induction f1 with
  | zero => intro f2 n acc h1; omega
  | succ f ih =>
    intro f2 n acc h1 h2
    cases f2 with
    | zero => omega
    | succ g =>
      simp only [Nat.toDigitsCore]
      by_cases h : n / 10 = 0
      · simp [h]
      · simp only [h, if_false]
        have hdiv : n / 10 < n := Nat.div_lt_self (by omega) (by omega)
        exact ih g (n / 10) _ (by omega) (by omega)

theorem toDigits_small {n : Nat} (h : n < 10) : Nat.toDigits 10 n = [Nat.digitChar n] := by
  simp only [Nat.toDigits, Nat.toDigitsCore]
  rw [Nat.div_eq_of_lt h, Nat.mod_eq_of_lt h]
  simp

theorem toDigitsCore_succ (b fuel n : Nat) (acc : List Char) :
    Nat.toDigitsCore b (fuel + 1) n acc =
      if n / b = 0 then Nat.digitChar (n % b) :: acc
      else Nat.toDigitsCore b fuel (n / b) (Nat.digitChar (n % b) :: acc) := by
  simp [Nat.toDigitsCore]

theorem toDigits_step {n : Nat} (h : 10 ≤ n) :
    Nat.toDigits 10 n = Nat.toDigits 10 (n / 10) ++ [Nat.digitChar (n % 10)] := by
  have hne : n / 10 ≠ 0 := by omega
  rw [Nat.toDigits, toDigitsCore_succ, if_neg hne,
    toDigitsCore_append 10 n (n / 10) [Nat.digitChar (n % 10)],
    toDigitsCore_fuel n (n / 10 + 1) (n / 10) [] (by omega) (by omega)]
  rfl

theorem digitChar_isDigit : ∀ m, m < 10 → (Nat.digitChar m).isDigit = true := by decide

theorem digitVal_digitChar : ∀ m, m < 10 → digitVal (Nat.digitChar m) = m := by decide

theorem toDigits_all_digits (n : Nat) : ∀ c ∈ Nat.toDigits 10 n, c.isDigit = true := by
  induction n using Nat.strong_induction_on with
  | _ n ih =>
    by_cases h : n < 10
    · rw [toDigits_small h]
      intro c hc
      rw [List.mem_singleton.mp hc]
      exact digitChar_isDigit n h
    · rw [toDigits_step (by omega)]
      intro c hc
      rcases List.mem_append.mp hc with hc | hc
      · exact ih (n / 10) (Nat.div_lt_self (by omega) (by omega)) c hc
      · rw [List.mem_singleton.mp hc]
        exact digitChar_isDigit _ (Nat.mod_lt _ (by omega))

theorem toDigits_ne_nil (n : Nat) : Nat.toDigits 10 n ≠ [] := by
  by_cases h : n < 10
  · rw [toDigits_small h]; simp
  · rw [toDigits_step (by omega)]; simp

theorem ofDigitChars_append (l : List Char) (c : Char) :
    ofDigitChars (l ++ [c]) = ofDigitChars l * 10 + digitVal c := by
  simp [ofDigitChars, List.foldl_append]

theorem ofDigitChars_toDigits (n : Nat) : ofDigitChars (Nat.toDigits 10 n) = n := by
  induction n using Nat.strong_induction_on with
  | _ n ih =>
    by_cases h : n < 10
    · rw [toDigits_small h]
      simpa [ofDigitChars] using digitVal_digitChar n h
    · rw [toDigits_step (by omega), ofDigitChars_append,
        ih (n / 10) (Nat.div_lt_self (by omega) (by omega)),
        digitVal_digitChar _ (Nat.mod_lt _ (by omega))]
      omega

theorem repr_data (n : Nat) : (Nat.repr n).data = Nat.toDigits 10 n := rfl

theorem repr_injective : Function.Injective Nat.repr := by
  intro m n h
  have : (Nat.repr m).data = (Nat.repr n).data := by rw [h]
  rw [repr_data, repr_data] at this
  calc m = ofDigitChars (Nat.toDigits 10 m) := (ofDigitChars_toDigits m).symm
    _ = ofDigitChars (Nat.toDigits 10 n) := by rw [this]
    _ = n := ofDigitChars_toDigits n

/-- The digit run at the end of `b ++ "_" ++ Nat.repr n` is exactly the
decimal representation of `n` (reversed): the appended underscore stops the
scan whatever `b` is. -/
theorem lastDigitRun_append_repr (b : String) (n : Nat) :
    lastDigitRun (b ++ "_" ++ Nat.repr n) = (Nat.toDigits 10 n).reverse := by
  have hdata : (b ++ "_" ++ Nat.repr n).data = b.data ++ ('_' :: Nat.toDigits 10 n) := by
    rw [String.data_append, String.data_append, repr_data]
    simp
  rw [lastDigitRun, hdata, List.reverse_append, List.reverse_cons, List.append_assoc,
    List.takeWhile_append]
  rw [if_pos]
  · have : List.takeWhile Char.isDigit (['_'] ++ b.data.reverse) = [] := by
      simp [List.takeWhile]
    rw [this, List.append_nil]
  · rw [List.takeWhile_eq_self_iff.mpr]
    intro c hc
    exact toDigits_all_digits n c (List.mem_reverse.mp hc)

/-- Two generated names with different counter values differ, whatever the
two base strings are. -/
theorem append_repr_injective {b1 b2 : String} {m n : Nat}
    (h : b1 ++ "_" ++ Nat.repr m = b2 ++ "_" ++ Nat.repr n) : m = n := by
  have := congrArg lastDigitRun h
  rw [lastDigitRun_append_repr, lastDigitRun_append_repr] at this
  have hd : Nat.toDigits 10 m = Nat.toDigits 10 n := by
    have := congrArg List.reverse this
    simpa using this
  calc m = ofDigitChars (Nat.toDigits 10 m) := (ofDigitChars_toDigits m).symm
    _ = ofDigitChars (Nat.toDigits 10 n) := by rw [hd]
    _ = n := ofDigitChars_toDigits n

/-! ## Name registry lemmas -/

theorem labelFind?_labelInsert (m : List (String × String)) (k v : String) :
    labelFind? (labelInsert m k v) k = some v := by
  induction m with
  | nil => simp [labelInsert, labelFind?]
  | cons kv rest ih =>
    by_cases h : kv.1 = k
    · simp [labelInsert, labelFind?, h]
    · simpa [labelInsert, labelFind?, List.find?, h] using ih

theorem runNewNames_length (p : LLVMProgram) (bases : List String) :
    (runNewNames p bases).1.length = bases.length := by
  induction bases generalizing p with
  | nil => simp [runNewNames]
  | cons b bs ih => simp [runNewNames, ih]

theorem runNewNames_counter (p : LLVMProgram) (bases : List String) :
    (runNewNames p bases).2.uniqueNameCounter = p.uniqueNameCounter + bases.length := by
  induction bases generalizing p with
  | nil => simp [runNewNames]
  | cons b bs ih => simp [runNewNames, ih, generateNewName]; omega

theorem runNewNames_get (p : LLVMProgram) (bases : List String) :
    ∀ (i : Nat) (h1 : i < (runNewNames p bases).1.length) (h2 : i < bases.length),
      (runNewNames p bases).1.get ⟨i, h1⟩
        = bases.get ⟨i, h2⟩ ++ "_" ++ Nat.repr (p.uniqueNameCounter + i) := by
  induction bases generalizing p with
  | nil => intro i h1 h2; simp at h2
  | cons b bs ih =>
    intro i h1 h2
    cases i with
    | zero => simp [runNewNames, generateNewName]
    | succ j =>
      have h1' : j < (runNewNames (generateNewName p b).2 bs).1.length := by
        have := runNewNames_length (generateNewName p b).2 bs
        simp [runNewNames] at h1
        omega
      have := ih (generateNewName p b).2 j h1' (by simpa using h2)
      have harith : (generateNewName p b).2.uniqueNameCounter + j
          = p.uniqueNameCounter + (j + 1) := by
        simp only [generateNewName]
        omega
      simp only [runNewNames, List.get_cons_succ]
      rw [this, harith]

theorem runNewNames_nodup (p : LLVMProgram) (bases : List String) :
    (runNewNames p bases).1.Nodup := by
  rw [List.nodup_iff_injective_get]
  intro i j hij
  have hlen := runNewNames_length p bases
  have hi2 : i.val < bases.length := by omega
  have hj2 : j.val < bases.length := by omega
  rw [runNewNames_get p bases i.val i.isLt hi2,
    runNewNames_get p bases j.val j.isLt hj2] at hij
  have := append_repr_injective hij
  exact Fin.ext (by omega)

/-! ## Claim C3: label assignment -/

/-- Counterexample to claim C3: `getLabel` is keyed by node *name*, not node
identity.  Two distinct nodes (different object identity) that carry the same
name `"x"` receive the same label, refuting "two distinct nodes never receive
the same label". -/
theorem claim_C3_counterexample :
    P4Node.mk 0 "x" false ≠ P4Node.mk 1 "x" false ∧
    (getLabel (getLabel (LLVMProgram.initState "p") (some (P4Node.mk 0 "x" false))).2
        (some (P4Node.mk 1 "x" false))).1
      = (getLabel (LLVMProgram.initState "p") (some (P4Node.mk 0 "x" false))).1 := by
  exact ⟨by decide, by decide⟩

/-- Claim C3 (amended): the label map is keyed by the node's name rather than
its identity.  The sentinel `None` always yields the literal label `"end"`
with no state change; a parse state's label is always its own name; and two
consecutive calls with nodes of equal name and equal parse-state kind (in
particular, two calls with the same node) return the identical label. -/
theorem claim_C3_amended (p : LLVMProgram) (n m : P4Node) :
    getLabel p none = ("end", p) ∧
    (n.isParseState = true → (getLabel p (some n)).1 = n.name) ∧
    (n.name = m.name → n.isParseState = m.isParseState →
      (getLabel (getLabel p (some n)).2 (some m)).1 = (getLabel p (some n)).1) := by
  refine ⟨rfl, ?_, ?_⟩
  · intro hn
    simp [getLabel, hn, labelFind?_labelInsert]
  · intro hname hkind
    cases hn : n.isParseState with
    | true =>
      have hm : m.isParseState = true := by rw [← hkind, hn]
      simp [getLabel, hn, hm, ← hname, labelFind?_labelInsert]
    | false =>
      have hm : m.isParseState = false := by rw [← hkind, hn]
      rcases hfind : labelFind? p.entryPointLabels n.name with _ | l
      · simp [getLabel, hn, hm, ← hname, hfind, generateNewName, labelFind?_labelInsert]
      · simp [getLabel, hn, hm, ← hname, hfind]

/-- Witness for the amended C3: on a fresh program, `None` yields `"end"`, a
parse state is labeled by its name, and a repeated call with one node
reproduces its label. -/
theorem claim_C3_amended_witness :
    getLabel (LLVMProgram.initState "p") none = ("end", LLVMProgram.initState "p") ∧
    (getLabel (LLVMProgram.initState "p") (some (P4Node.mk 1 "start" true))).1 = "start" ∧
    (getLabel (getLabel (LLVMProgram.initState "p") (some (P4Node.mk 0 "t1" false))).2
        (some (P4Node.mk 0 "t1" false))).1
      = (getLabel (LLVMProgram.initState "p") (some (P4Node.mk 0 "t1" false))).1 :=
  ⟨(claim_C3_amended (LLVMProgram.initState "p") (P4Node.mk 0 "t1" false)
      (P4Node.mk 0 "t1" false)).1,
   (claim_C3_amended (LLVMProgram.initState "p") (P4Node.mk 1 "start" true)
      (P4Node.mk 1 "start" true)).2.1 rfl,
   (claim_C3_amended (LLVMProgram.initState "p") (P4Node.mk 0 "t1" false)
      (P4Node.mk 0 "t1" false)).2.2 rfl rfl⟩

/-! ## Claim C4: fresh name generation -/

/-- Claim C4: any sequence of `generateNewName` calls on one program instance
returns pairwise distinct strings; the i-th returned string is the i-th base
plus the suffix `"_" + str(counter_i)`, suffixes for distinct calls being
distinct; each call increments the counter by one unconditionally; and the
counter starts at 0. -/
theorem claim_C4 (p : LLVMProgram) (bases : List String) :
    (runNewNames p bases).1.Nodup ∧
    (∀ (i : Nat) (h1 : i < (runNewNames p bases).1.length) (h2 : i < bases.length),
      (runNewNames p bases).1.get ⟨i, h1⟩
        = bases.get ⟨i, h2⟩ ++ "_" ++ Nat.repr (p.uniqueNameCounter + i)) ∧
    (∀ i j : Nat, i ≠ j →
      ("_" ++ Nat.repr (p.uniqueNameCounter + i) : String)
        ≠ "_" ++ Nat.repr (p.uniqueNameCounter + j)) ∧
    (∀ (q : LLVMProgram) (b : String),
      generateNewName q b = (b ++ "_" ++ Nat.repr q.uniqueNameCounter,
        { q with uniqueNameCounter := q.uniqueNameCounter + 1 })) ∧
    (runNewNames p bases).2.uniqueNameCounter = p.uniqueNameCounter + bases.length ∧
    (∀ nm, (LLVMProgram.initState nm).uniqueNameCounter = 0) := by
  refine ⟨runNewNames_nodup p bases, runNewNames_get p bases, ?_, fun q b => rfl,
    runNewNames_counter p bases, fun nm => rfl⟩
  intro i j hij heq
  have : ("" ++ "_" ++ Nat.repr (p.uniqueNameCounter + i) : String)
      = "" ++ "_" ++ Nat.repr (p.uniqueNameCounter + j) := by
    simpa using heq
  have := append_repr_injective this
  omega

/-- Witness for C4: three calls with the identical base `"x"` on a fresh
program yield `["x_0", "x_1", "x_2"]` — pairwise distinct, each the base plus
a distinct counter suffix. -/
theorem claim_C4_witness :
    (runNewNames (LLVMProgram.initState "p") ["x", "x", "x"]).1.Nodup ∧
    (runNewNames (LLVMProgram.initState "p") ["x", "x", "x"]).1.get ⟨1, by decide⟩
      = (["x", "x", "x"] : List String).get ⟨1, by decide⟩ ++ "_"
          ++ Nat.repr ((LLVMProgram.initState "p").uniqueNameCounter + 1) ∧
    ("_" ++ Nat.repr ((LLVMProgram.initState "p").uniqueNameCounter + 0) : String)
      ≠ "_" ++ Nat.repr ((LLVMProgram.initState "p").uniqueNameCounter + 1) :=
  ⟨(claim_C4 (LLVMProgram.initState "p") ["x", "x", "x"]).1,
   (claim_C4 (LLVMProgram.initState "p") ["x", "x", "x"]).2.1 1 (by decide) (by decide),
   (claim_C4 (LLVMProgram.initState "p") ["x", "x", "x"]).2.2.1 0 1 (by decide)⟩

/-! ## Claim C5: instance classification -/

/-- Claim C5: the classification loop is total and exclusive.  The resulting
program extends exactly the three collections: headers by the non-array
non-metadata instances, metadata by the non-array metadata-flagged instances,
stacks by the zero-index array instances (one wrapper each, with one fresh
index-variable name per stack, the counter advancing once per stack and not
otherwise); non-zero-index array instances produce no wrapper.  Each instance
satisfies exactly one of the four case predicates. -/
theorem claim_C5 (p : LLVMProgram) (insts : List HeaderInstance) :
    constructInstances p insts = { p with
      headers := p.headers ++ (insts.filter isHeaderInst).map (fun h => ⟨h.name, h⟩),
      metadata := p.metadata ++ (insts.filter isMetadataInst).map (fun h => ⟨h.name, h⟩),
      «stacks» := p.«stacks» ++ stackWrappers p.uniqueNameCounter (insts.filter isStackZero),
      uniqueNameCounter := p.uniqueNameCounter + (insts.filter isStackZero).length } ∧
    (∀ h : HeaderInstance,
      (if isHeaderInst h then 1 else 0) + (if isMetadataInst h then 1 else 0)
        + (if isStackZero h then 1 else 0) + (if isStackNonZero h then 1 else 0) = 1) := by
  constructor
  · induction insts generalizing p with
    | nil => simp [constructInstances, stackWrappers]
    | cons h t ih =>
      rcases hmi : h.max_index with _ | k
      · by_cases hmeta : h.metadata
        · have hstep : constructInstances p (h :: t)
              = constructInstances { p with metadata := p.metadata ++ [⟨h.name, h⟩] } t := by
            simp [constructInstances, hmi, hmeta]
          rw [hstep, ih]
          simp [List.filter_cons, isHeaderInst, isMetadataInst, isStackZero, hmi, hmeta]
        · have hstep : constructInstances p (h :: t)
              = constructInstances { p with headers := p.headers ++ [⟨h.name, h⟩] } t := by
            simp [constructInstances, hmi, hmeta]
          rw [hstep, ih]
          simp [List.filter_cons, isHeaderInst, isMetadataInst, isStackZero, hmi, hmeta]
      · by_cases hidx : h.index = 0
        · have hstep : constructInstances p (h :: t)
              = constructInstances { p with
                  uniqueNameCounter := p.uniqueNameCounter + 1,
                  «stacks» := p.«stacks»
                    ++ [⟨h.base_name, h,
                          h.base_name ++ "_index" ++ "_" ++ Nat.repr p.uniqueNameCounter⟩] }
                t := by
            simp [constructInstances, hmi, hidx, generateNewName]
          rw [hstep, ih]
          simp [List.filter_cons, isHeaderInst, isMetadataInst, isStackZero, hmi, hidx,
            stackWrappers]
          omega
        · have hstep : constructInstances p (h :: t) = constructInstances p t := by
            simp [constructInstances, hmi, hidx]
          rw [hstep, ih]
          simp [List.filter_cons, isHeaderInst, isMetadataInst, isStackZero, hmi, hidx]
  · intro h
    obtain ⟨hn, hb, hi, hmi, hmt⟩ := h
    simp only [isHeaderInst, isMetadataInst, isStackZero, isStackNonZero]
    rcases hmi with _ | k <;> rcases hmt with _ | _ <;>
      by_cases hidx : hi = 0 <;> simp [hidx]

/-- Witness for C5: a four-instance HLIR (a header, a metadata instance, and
a two-element stack group) classifies into one wrapper each for the header,
the metadata and the zero-index stack element, the non-zero index being
absorbed, with exactly one fresh index-variable name allocated. -/
theorem claim_C5_witness :
    constructInstances (LLVMProgram.initState "p")
        [⟨"ipv4", "ipv4", 0, none, false⟩, ⟨"meta", "meta", 0, none, true⟩,
          ⟨"vlan[0]", "vlan", 0, some 1, false⟩, ⟨"vlan[1]", "vlan", 1, some 1, false⟩]
      = { LLVMProgram.initState "p" with
          headers := [⟨"ipv4", ⟨"ipv4", "ipv4", 0, none, false⟩⟩]
          metadata := [⟨"meta", ⟨"meta", "meta", 0, none, true⟩⟩]
          «stacks» := [⟨"vlan", ⟨"vlan[0]", "vlan", 0, some 1, false⟩, "vlan_index_0"⟩]
          uniqueNameCounter := 1 } := by
  have h := (claim_C5 (LLVMProgram.initState "p")
    [⟨"ipv4", "ipv4", 0, none, false⟩, ⟨"meta", "meta", 0, none, true⟩,
      ⟨"vlan[0]", "vlan", 0, some 1, false⟩, ⟨"vlan[1]", "vlan", 1, some 1, false⟩]).1
  rw [h]
  rfl

/-! ## Claim C6: calculated-field rejection -/

/-- Claim C6: construction raises `NotSupportedException` naming the first
calculated field if and only if the calculated-field-list collection is
non-empty, whatever else the HLIR contains; the check is the first statement
of `construct`, so the error state is the untouched initial program, whose
collections are all empty. -/
theorem claim_C6 (nm : String) (hlir : HLIR) :
    (∀ flc rest, hlir.p4_field_list_calculations = flc :: rest →
      LLVMProgram.init nm hlir
        = .error (.notSupported "{0} calculated field" flc.name, LLVMProgram.initState nm)) ∧
    ((LLVMProgram.initState nm).headers = [] ∧ (LLVMProgram.initState nm).metadata = []
      ∧ (LLVMProgram.initState nm).«stacks» = [] ∧ (LLVMProgram.initState nm).parsers = []
      ∧ (LLVMProgram.initState nm).conditionals = [] ∧ (LLVMProgram.initState nm).tables = []
      ∧ (LLVMProgram.initState nm).deparser = none) ∧
    (hlir.p4_field_list_calculations = [] →
      ∀ e q, construct (LLVMProgram.initState nm) hlir = .error (e, q) →
        ∀ fmt arg, e ≠ CompilationException.notSupported fmt arg) := by
  refine ⟨?_, by simp [LLVMProgram.initState], ?_⟩
  · intro flc rest h
    simp [LLVMProgram.init, construct, h]
  · intro hnil e q hc fmt arg
    rcases hcond : hlir.p4_conditional_nodes with _ | ⟨c, cs⟩ <;>
      simp [construct, hnil, hcond] at hc
    rw [← hc.1]
    simp

/-- Witness for C6: an HLIR with a calculated field fails with the
unsupported-feature fault carrying the untouched empty program; the check does
not depend on the other (valid) constructs present. -/
theorem claim_C6_witness :
    LLVMProgram.init "test" hlirWithCalc
      = .error (.notSupported "{0} calculated field" "csum", LLVMProgram.initState "test") ∧
    (LLVMProgram.initState "test").headers = [] :=
  ⟨(claim_C6 "test" hlirWithCalc).1 ⟨"csum"⟩ [] rfl,
   (claim_C6 "test" hlirEmpty).2.1.1⟩

/-! ## Claim C7: lookup registries -/

theorem findByName_eq_find? {α : Type} (getName : α → String) (name : String) (l : List α) :
    findByName getName name l = l.find? (fun x => getName x == name) := by
  induction l with
  | nil => simp [findByName]
  | cons x xs ih =>
    by_cases h : getName x = name <;> simp [findByName, List.find?_cons, h, ih]

theorem findByName_none_iff {α : Type} (getName : α → String) (name : String) (l : List α) :
    findByName getName name l = none ↔ ∀ x ∈ l, getName x ≠ name := by
  rw [findByName_eq_find?, List.find?_eq_none]
  simp

theorem findByName_some_iff {α : Type} (getName : α → String) (name : String) (l : List α)
    (y : α) :
    findByName getName name l = some y ↔
      getName y = name ∧ ∃ l1 l2, l = l1 ++ y :: l2 ∧ ∀ x ∈ l1, getName x ≠ name := by
  rw [findByName_eq_find?, List.find?_eq_some]
  simp

theorem getTable_ok_iff (p : LLVMProgram) (nm : String) (t : LLVMTable) :
    getTable p nm = .ok t ↔ findByName LLVMTable.name nm p.tables = some t := by
  unfold getTable
  rcases hf : findByName LLVMTable.name nm p.tables with _ | u <;> simp [hf]

theorem getTable_error_iff (p : LLVMProgram) (nm : String) :
    getTable p nm = .error (.compilationError true "Could not locate table named {0}" nm)
      ↔ findByName LLVMTable.name nm p.tables = none := by
  unfold getTable
  rcases hf : findByName LLVMTable.name nm p.tables with _ | u <;> simp [hf]

theorem getConditional_ok_iff (p : LLVMProgram) (nm : String) (c : LLVMConditional) :
    getConditional p nm = .ok c ↔ findByName LLVMConditional.name nm p.conditionals = some c := by
  unfold getConditional
  rcases hf : findByName LLVMConditional.name nm p.conditionals with _ | u <;> simp [hf]

theorem getConditional_error_iff (p : LLVMProgram) (nm : String) :
    getConditional p nm
        = .error (.compilationError true "Could not locate conditional named {0}" nm)
      ↔ findByName LLVMConditional.name nm p.conditionals = none := by
  unfold getConditional
  rcases hf : findByName LLVMConditional.name nm p.conditionals with _ | u <;> simp [hf]

theorem getHeaderInstance_ok_iff (p : LLVMProgram) (nm : String) (h : LLVMHeader) :
    getHeaderInstance p nm = .ok h ↔ findByName LLVMHeader.name nm p.headers = some h := by
  unfold getHeaderInstance
  rcases hf : findByName LLVMHeader.name nm p.headers with _ | u <;> simp [hf]

theorem getHeaderInstance_error_iff (p : LLVMProgram) (nm : String) :
    getHeaderInstance p nm
        = .error (.compilationError true "Could not locate header instance named {0}" nm)
      ↔ findByName LLVMHeader.name nm p.headers = none := by
  unfold getHeaderInstance
  rcases hf : findByName LLVMHeader.name nm p.headers with _ | u <;> simp [hf]

theorem getStackInstance_ok_iff (p : LLVMProgram) (nm : String) (s : LLVMHeaderStack) :
    getStackInstance p nm = .ok s ↔ findByName LLVMHeaderStack.name nm p.«stacks» = some s := by
  unfold getStackInstance
  rcases hf : findByName LLVMHeaderStack.name nm p.«stacks» with _ | u <;> simp [hf]

theorem getStackInstance_error_iff (p : LLVMProgram) (nm : String) :
    getStackInstance p nm
        = .error (.compilationError true "Could not locate header stack named {0}" nm)
      ↔ findByName LLVMHeaderStack.name nm p.«stacks» = none := by
  unfold getStackInstance
  rcases hf : findByName LLVMHeaderStack.name nm p.«stacks» with _ | u <;> simp [hf]

theorem getInstance_inl_iff (p : LLVMProgram) (nm : String) (h : LLVMHeader) :
    getInstance p nm = .ok (Sum.inl h) ↔ findByName LLVMHeader.name nm p.headers = some h := by
  unfold getInstance
  rcases hf1 : findByName LLVMHeader.name nm p.headers with _ | u
  · rcases hf2 : findByName LLVMMetadata.name nm p.metadata with _ | v <;> simp [hf1, hf2]
  · simp [hf1]

theorem getInstance_inr_iff (p : LLVMProgram) (nm : String) (m : LLVMMetadata) :
    getInstance p nm = .ok (Sum.inr m) ↔
      findByName LLVMHeader.name nm p.headers = none ∧
        findByName LLVMMetadata.name nm p.metadata = some m := by
  unfold getInstance
  rcases hf1 : findByName LLVMHeader.name nm p.headers with _ | u
  · rcases hf2 : findByName LLVMMetadata.name nm p.metadata with _ | v <;> simp [hf1, hf2]
  · simp [hf1]

theorem getInstance_error_iff (p : LLVMProgram) (nm : String) :
    getInstance p nm = .error (.compilationError true "Could not locate instance named {0}" nm)
      ↔ findByName LLVMHeader.name nm p.headers = none ∧
          findByName LLVMMetadata.name nm p.metadata = none := by
  unfold getInstance
  rcases hf1 : findByName LLVMHeader.name nm p.headers with _ | u
  · rcases hf2 : findByName LLVMMetadata.name nm p.metadata with _ | v <;> simp [hf1, hf2]
  · simp [hf1]

/-- Claim C7: each lookup registry succeeds exactly on the first exact-name
match of its scanned collection (headers before metadata for `getInstance`)
and fails with the entity-kind/name-carrying fault exactly when no element of
the scanned collection bears the requested name. -/
theorem claim_C7 (p : LLVMProgram) (nm : String) :
    (∀ t, getTable p nm = .ok t ↔
      t.name = nm ∧ ∃ l1 l2, p.tables = l1 ++ t :: l2 ∧ ∀ x ∈ l1, x.name ≠ nm) ∧
    (getTable p nm = .error (.compilationError true "Could not locate table named {0}" nm)
      ↔ ∀ x ∈ p.tables, x.name ≠ nm) ∧
    (∀ c, getConditional p nm = .ok c ↔
      c.name = nm ∧ ∃ l1 l2, p.conditionals = l1 ++ c :: l2 ∧ ∀ x ∈ l1, x.name ≠ nm) ∧
    (getConditional p nm
        = .error (.compilationError true "Could not locate conditional named {0}" nm)
      ↔ ∀ x ∈ p.conditionals, x.name ≠ nm) ∧
    (∀ h, getHeaderInstance p nm = .ok h ↔
      h.name = nm ∧ ∃ l1 l2, p.headers = l1 ++ h :: l2 ∧ ∀ x ∈ l1, x.name ≠ nm) ∧
    (getHeaderInstance p nm
        = .error (.compilationError true "Could not locate header instance named {0}" nm)
      ↔ ∀ x ∈ p.headers, x.name ≠ nm) ∧
    (∀ s, getStackInstance p nm = .ok s ↔
      s.name = nm ∧ ∃ l1 l2, p.«stacks» = l1 ++ s :: l2 ∧ ∀ x ∈ l1, x.name ≠ nm) ∧
    (getStackInstance p nm
        = .error (.compilationError true "Could not locate header stack named {0}" nm)
      ↔ ∀ x ∈ p.«stacks», x.name ≠ nm) ∧
    (∀ h, getInstance p nm = .ok (Sum.inl h) ↔
      h.name = nm ∧ ∃ l1 l2, p.headers = l1 ++ h :: l2 ∧ ∀ x ∈ l1, x.name ≠ nm) ∧
    (∀ m, getInstance p nm = .ok (Sum.inr m) ↔
      (∀ x ∈ p.headers, x.name ≠ nm) ∧ m.name = nm ∧
        ∃ l1 l2, p.metadata = l1 ++ m :: l2 ∧ ∀ x ∈ l1, x.name ≠ nm) ∧
    (getInstance p nm = .error (.compilationError true "Could not locate instance named {0}" nm)
      ↔ (∀ x ∈ p.headers, x.name ≠ nm) ∧ ∀ x ∈ p.metadata, x.name ≠ nm) := by
  refine ⟨fun t => ?_, ?_, fun c => ?_, ?_, fun h => ?_, ?_, fun s => ?_, ?_,
    fun h => ?_, fun m => ?_, ?_⟩
  · rw [getTable_ok_iff, findByName_some_iff]
  · rw [getTable_error_iff, findByName_none_iff]
  · rw [getConditional_ok_iff, findByName_some_iff]
  · rw [getConditional_error_iff, findByName_none_iff]
  · rw [getHeaderInstance_ok_iff, findByName_some_iff]
  · rw [getHeaderInstance_error_iff, findByName_none_iff]
  · rw [getStackInstance_ok_iff, findByName_some_iff]
  · rw [getStackInstance_error_iff, findByName_none_iff]
  · rw [getInstance_inl_iff, findByName_some_iff]
  · rw [getInstance_inr_iff, findByName_none_iff, findByName_some_iff]
  · rw [getInstance_error_iff, findByName_none_iff, findByName_none_iff]

/-- Witness for C7: on a program with two tables named `"a"` and `"b"`, the
lookup of `"b"` returns the (first) matching table, and the lookup of a
missing name on an empty collection yields the entity-not-found fault. -/
theorem claim_C7_witness :
    getTable { LLVMProgram.initState "p" with tables := [⟨"a"⟩, ⟨"b"⟩] } "b"
      = .ok (LLVMTable.mk "b") ∧
    getTable (LLVMProgram.initState "p") "t"
      = .error (.compilationError true "Could not locate table named {0}" "t") :=
  ⟨((claim_C7 { LLVMProgram.initState "p" with tables := [⟨"a"⟩, ⟨"b"⟩] } "b").1
      (LLVMTable.mk "b")).mpr
      ⟨rfl, [⟨"a"⟩], [], rfl, by simp⟩,
   ((claim_C7 (LLVMProgram.initState "p") "t").2.1).mpr (by simp [LLVMProgram.initState])⟩

/-! ## Claim C8: the error-code enumeration -/

theorem constructInstances_errorCodes (insts : List HeaderInstance) :
    ∀ p : LLVMProgram, (constructInstances p insts).errorCodes = p.errorCodes := by
  induction insts with
  | nil => intro p; rfl
  | cons h t ih =>
    intro p
    obtain ⟨hn, hb, hi, hmi, hmt⟩ := h
    simp only [constructInstances]
    rw [ih]
    rcases hmi with _ | k <;> rcases hmt with _ | _ <;>
      by_cases hidx : hi = 0 <;> simp [hidx, generateNewName]

theorem construct_ok_errorCodes (p : LLVMProgram) (hlir : HLIR) (q : LLVMProgram)
    (hq : construct p hlir = .ok q) : q.errorCodes = p.errorCodes := by
  rcases hflc : hlir.p4_field_list_calculations with _ | ⟨flc, rest⟩
  · rcases hcond : hlir.p4_conditional_nodes with _ | ⟨c, cs⟩
    · simp only [construct, hflc, hcond, Except.ok.injEq] at hq
      rw [← hq]
      simp [constructInstances_errorCodes]
    · simp [construct, hflc, hcond] at hq
  · simp [construct, hflc] at hq

theorem getLabel_errorCodes (p : LLVMProgram) (node : Option P4Node) :
    ((getLabel p node).2).errorCodes = p.errorCodes := by
  rcases node with _ | n
  · rfl
  · by_cases hps : n.isParseState <;>
      simp only [getLabel, hps, if_true, if_false] <;>
      split <;>
      simp [generateNewName]

/-- Claim C8: the error-code enumeration is exactly the seven listed entries
in that order, and no modelled operation of the program (construction, label
assignment, name generation) changes it. -/
theorem claim_C8 (nm : String) (hlir : HLIR) :
    (LLVMProgram.initState nm).errorCodes = [
      "p4_pe_no_error",
      "p4_pe_index_out_of_bounds",
      "p4_pe_out_of_packet",
      "p4_pe_header_too_long",
      "p4_pe_header_too_short",
      "p4_pe_unhandled_select",
      "p4_pe_checksum"] ∧
    (∀ q, LLVMProgram.init nm hlir = .ok q →
      q.errorCodes = (LLVMProgram.initState nm).errorCodes) ∧
    (∀ (p : LLVMProgram) (node : Option P4Node),
      ((getLabel p node).2).errorCodes = p.errorCodes) ∧
    (∀ (p : LLVMProgram) (b : String),
      ((generateNewName p b).2).errorCodes = p.errorCodes) ∧
    (∀ (p : LLVMProgram) (hl : HLIR) (q : LLVMProgram),
      construct p hl = .ok q → q.errorCodes = p.errorCodes) :=
  ⟨rfl,
   fun q hq => construct_ok_errorCodes (LLVMProgram.initState nm) hlir q hq,
   getLabel_errorCodes,
   fun p b => rfl,
   construct_ok_errorCodes⟩

/-- Witness for C8: on the empty HLIR, initialization succeeds and the
constructed program still carries the seven-entry enumeration. -/
theorem claim_C8_witness :
    (LLVMProgram.initState "x").errorCodes = [
      "p4_pe_no_error",
      "p4_pe_index_out_of_bounds",
      "p4_pe_out_of_packet",
      "p4_pe_header_too_long",
      "p4_pe_header_too_short",
      "p4_pe_unhandled_select",
      "p4_pe_checksum"] ∧
    ({ LLVMProgram.initState "x" with deparser := some ⟨hlirEmpty⟩ } : LLVMProgram).errorCodes
      = (LLVMProgram.initState "x").errorCodes :=
  ⟨(claim_C8 "x" hlirEmpty).1,
   (claim_C8 "x" hlirEmpty).2.1 { LLVMProgram.initState "x" with deparser := some ⟨hlirEmpty⟩ }
     rfl⟩

/-! ## Claim C9: the ternary branch of the expression flattener -/

/-- Claim C9: a ternary (`"?"`) expression node always makes
`build_expression` fail — with the name error for the out-of-scope `value`
when the `cond` key is present, with the key error when it is absent — and
never produces flattened output. -/
theorem claim_C9 (cond : Option JsonExpr) (l r : JsonExpr)
    (sb : List SBItem) (md : List JsonValue) :
    build_expression (.expression "?" cond l r) sb md
      = .error (match cond with
          | none => .keyError "cond"
          | some _ => .nameError "value") ∧
    (build_expression (.expression "?" cond l r) sb md).toOption = none := by
  rcases cond with _ | c
  · exact ⟨rfl, rfl⟩
  · exact ⟨rfl, rfl⟩

/-! ## Claim C10: partiality of the width resolver -/

theorem foldl_update_none {α β : Type} (cond : α → Prop) [DecidablePred cond] (f : α → β) :
    ∀ l : List α, (∀ x ∈ l, ¬ cond x) → ∀ acc : Option β,
      l.foldl (fun a x => if cond x then some (f x) else a) acc = acc := by
  intro l
  induction l with
  | nil => intro _ acc; rfl
  | cons x xs ih =>
    intro hno acc
    rw [List.foldl_cons, if_neg (hno x (List.mem_cons_self x xs))]
    exact ih (fun y hy => hno y (List.mem_cons_of_mem x hy)) acc

/-- Claim C10: for a field pair whose header name is not among the configured
headers, `GetFieldWidth` crashes (iterates the still-`None` `fields`), while
`GetHeaderWidth` and `GetHeaderTypeWidth` return `None` for unknown names. -/
theorem claim_C10 (jd : JsonData) (field : String × String)
    (habs : ∀ h ∈ jd.headers, h.name ≠ field.1) :
    GetFieldWidth jd field = .error .typeErrorNotIterable ∧
    GetHeaderWidth jd field.1 = none ∧
    (∀ tyname, (∀ t ∈ jd.header_types, t.name ≠ tyname) →
      GetHeaderTypeWidth jd tyname = none) := by
  refine ⟨?_, ?_, ?_⟩
  · have h1 : jd.headers.foldl
        (fun acc h => if h.name = field.1 then some h.header_type else acc) none = none :=
      foldl_update_none (fun h => h.name = field.1) (fun h => h.header_type)
        jd.headers habs none
    have h2 : jd.header_types.foldl
        (fun acc h => if some h.name = (none : Option String) then some h.fields else acc)
        none = none :=
      foldl_update_none (fun h => some h.name = (none : Option String))
        (fun h => h.fields) jd.header_types (by simp) none
    simp only [GetFieldWidth, h1, h2]
  · have : jd.headers.find? (fun h => h.name == field.1) = none :=
      List.find?_eq_none.mpr (fun x hx => by simpa using habs x hx)
    simp [GetHeaderWidth, this]
  · intro tyname hty
    have : jd.header_types.find? (fun h => h.name == tyname) = none :=
      List.find?_eq_none.mpr (fun x hx => by simpa using hty x hx)
    simp [GetHeaderTypeWidth, this]

/-- Witness for C10 on an empty JSON configuration: `GetFieldWidth` crashes
with the iteration type error while the header-width resolvers return
`None`. -/
theorem claim_C10_witness :
    GetFieldWidth (JsonData.mk [] []) ("eth", "dstAddr") = .error .typeErrorNotIterable ∧
    GetHeaderWidth (JsonData.mk [] []) "eth" = none ∧
    GetHeaderTypeWidth (JsonData.mk [] []) "eth_t" = none :=
  ⟨(claim_C10 (JsonData.mk [] []) ("eth", "dstAddr") (by simp)).1,
   (claim_C10 (JsonData.mk [] []) ("eth", "dstAddr") (by simp)).2.1,
   (claim_C10 (JsonData.mk [] []) ("eth", "dstAddr") (by simp)).2.2 "eth_t" (by simp)⟩

end P4FPGA

